import Mathlib

/-!
Verification of the obsidian-hoarder bookmark-sync plugin core.

Strings are modelled as `List Char`.  JavaScript `string | null | undefined`
values are modelled as `Option (List Char)` (both `null` and `undefined`
take the same code path everywhere in this code base, namely JS falsiness).
Platform services (the `Date`/`URL` objects, file I/O, the HTTP client) are
modelled at their boundary: a bookmark carries the ISO rendering of its
timestamps and the parse result of its URLs as data, and the asynchronous
asset pipeline of the renderer is a parameter.
-/

/-- JavaScript whitespace (the characters matched by `\s` and removed by
`String.prototype.trim` that occur in practice): space, tab, LF, CR, VT, FF,
NBSP, BOM, identified by code point. -/
def isJsWs (c : Char) : Bool :=
  c.toNat == 32 || c.toNat == 9 || c.toNat == 10 || c.toNat == 13 ||
  c.toNat == 11 || c.toNat == 12 || c.toNat == 160 || c.toNat == 65279

/-- `String.prototype.trim`: drop leading and trailing whitespace. -/
def jsTrim (s : List Char) : List Char :=
  ((s.dropWhile isJsWs).reverse.dropWhile isJsWs).reverse

/-- `str.replace(/X+/g, r)` for a character class `p`: every maximal run of
characters satisfying `p` is replaced by the single character `r`. -/
def collapseRuns (p : Char → Bool) (r : Char) : List Char → List Char
  | [] => []
  | [c] => if p c then [r] else [c]
  | c :: c' :: cs =>
    if p c && p c' then collapseRuns p r (c' :: cs)
    else (if p c then r else c) :: collapseRuns p r (c' :: cs)

/-- Whether the pattern `p` occurs as a contiguous subsequence of `s`
(JS `String.prototype.includes` / a successful regex search for a literal). -/
def containsSeq (p : List Char) : List Char → Bool
  | [] => p.isPrefixOf []
  | c :: cs => p.isPrefixOf (c :: cs) || containsSeq p cs

/-- The text immediately after the first occurrence of `p` in `s`
(`none` when `p` does not occur).  This is the position at which the capture
group of a regex beginning with the literal `p` starts matching. -/
def afterFirst (p : List Char) : List Char → Option (List Char)
  | [] => if p.isPrefixOf [] then some [] else none
  | c :: cs =>
    if p.isPrefixOf (c :: cs) then some ((c :: cs).drop p.length)
    else afterFirst p cs

/-- `str.replace(pat, rep)` with a string pattern: replace the first
occurrence only; return the string unchanged when the pattern is absent. -/
def replaceFirst (pat rep : List Char) : List Char → List Char
  | [] => if pat.isPrefixOf [] then rep else []
  | c :: cs =>
    if pat.isPrefixOf (c :: cs) then rep ++ (c :: cs).drop pat.length
    else c :: replaceFirst pat rep cs

/-- `str.split(sep)` for a single-character separator, JS semantics:
`"".split` gives `[""]`, a trailing separator yields a final empty field. -/
def splitOnChar (sep : Char) : List Char → List (List Char)
  | [] => [[]]
  | c :: cs =>
    if c == sep then [] :: splitOnChar sep cs
    else
      match splitOnChar sep cs with
      | [] => [[c]]
      | l :: ls => (c :: l) :: ls

/-- Reading a JS `string | null | undefined` as a string, absent ↦ `""`. -/
def jsStr (o : Option (List Char)) : List Char := o.getD []

/-- JS truthiness of a `string | null | undefined` value:
present and non-empty. -/
def jsTruthy (o : Option (List Char)) : Bool :=
  match o with
  | some s => !s.isEmpty
  | none => false

/-! ## Tag sanitizer (src/src/tag-utils.ts, `sanitizeTag`) -/

/-- The regex class `\d` = `[0-9]`, by code point. -/
def isDigitChar (c : Char) : Bool :=
  decide (48 ≤ c.toNat) && decide (c.toNat ≤ 57)

/-- The regex class `[\d\/\-_]` (digits and the separators `/`, `-`, `_`). -/
def isDigitSepChar (c : Char) : Bool :=
  isDigitChar c || c.toNat == 47 || c.toNat == 45 || c.toNat == 95

/-- The regex class of characters kept by the sanitizer: ASCII letters,
digits, underscore, hyphen, forward slash. -/
def isValidTagChar (c : Char) : Bool :=
  (decide (97 ≤ c.toNat) && decide (c.toNat ≤ 122)) ||
  (decide (65 ≤ c.toNat) && decide (c.toNat ≤ 90)) ||
  isDigitChar c || c.toNat == 95 || c.toNat == 45 || c.toNat == 47

/-- `sanitizeTag` from src/src/tag-utils.ts: trim; fail on empty; replace
whitespace runs with `-`; strip characters outside the valid-tag class; fail
on empty; prepend `tag-` when the result is all digits; prepend `tag-` when
the result is all digits/separators. -/
def sanitizeTag (tag : List Char) : Option (List Char) :=
  let s0 := jsTrim tag
  if s0.isEmpty then none
  else
    let s1 := collapseRuns isJsWs '-' s0
    let s2 := s1.filter isValidTagChar
    if s2.isEmpty then none
    else
      let s3 := if s2.all isDigitChar then ("tag-".toList) ++ s2 else s2
      let s4 := if s3.all isDigitSepChar then ("tag-".toList) ++ s3 else s3
      some s4

/-! ## YAML/Markdown escaping (src/src/tag-utils.ts) -/

/-- The YAML-special characters of `escapeYaml`'s block-scalar test,
`[:#{}\[\],&*?|<>=!%@`]`, listed by code point (123 `{`, 125 `}`, 96
backtick). -/
def yamlSpecialChars : List Char :=
  [':', '#', Char.ofNat 123, Char.ofNat 125, '[', ']', ',', '&', '*', '?',
   '|', '<', '>', '=', '!', '%', '@', Char.ofNat 96]

/-- `str.replace(/\n/g, "\n  ")`. -/
def indentNewlines : List Char → List Char
  | [] => []
  | c :: cs =>
    if c == '\n' then '\n' :: ' ' :: ' ' :: indentNewlines cs
    else c :: indentNewlines cs

/-- `str.replace(/\"/g, '\\\"')`: each double quote becomes backslash-quote. -/
def backslashQuotes : List Char → List Char
  | [] => []
  | c :: cs =>
    if c == '"' then '\\' :: '"' :: backslashQuotes cs
    else c :: backslashQuotes cs

/-- `escapeYaml` from src/src/tag-utils.ts.  `none` stands for both `null`
and `undefined` (the source treats them identically via `if (!str)`). -/
def escapeYaml (str : Option (List Char)) : List Char :=
  match str with
  | none => []
  | some s =>
    if s.isEmpty then []
    else if s.contains '\n' || s.any (fun c => yamlSpecialChars.contains c) then
      ("|\n  ".toList) ++ indentNewlines s
    else if s.contains '"' then
      '\'' :: s ++ ['\'']
    else if s.contains '\'' ||
        (match s with | c :: _ => c == ' ' || c == '\t' | [] => false) ||
        (match s.getLast? with | some c => c == ' ' || c == '\t' | none => false) then
      '"' :: backslashQuotes s ++ ['"']
    else s

/-- The character test of `escapeMarkdownPath`, `[<>[\](){}]` plus space. -/
def mdPathSpecialChars : List Char :=
  [' ', '<', '>', '[', ']', '(', ')', Char.ofNat 123, Char.ofNat 125]

/-- `escapeMarkdownPath` from src/src/tag-utils.ts: wrap in angle brackets
when the path contains a space or a bracket-like character. -/
def escapeMarkdownPath (path : List Char) : List Char :=
  if path.any (fun c => mdPathSpecialChars.contains c) then
    '<' :: path ++ ['>']
  else path

/-- The tag escaping helper of the renderer: whitespace runs become `-`,
then the tag is always quoted (single quotes when it contains a double
quote, double quotes otherwise). -/
def escapeTag (tag : List Char) : List Char :=
  let processed := collapseRuns isJsWs '-' tag
  if processed.contains '"' then '\'' :: processed ++ ['\'']
  else '"' :: processed ++ ['"']

/-! ## Tag filter (src/unnamed/part_001, `shouldIncludeBookmark`) -/

inductive FilterReason where
  | excludedTag
  | missingIncludedTag
  deriving DecidableEq

/-- Result of the tag filter.  The source field `include` is a reserved
word in Lean and is called `includeFlag` here. -/
structure FilterResult where
  includeFlag : Bool
  reason : Option FilterReason
  deriving DecidableEq

/-- `shouldIncludeBookmark`: include-list check first (non-empty include
list with no intersecting bookmark tag excludes with
`missing_included_tag`), then — unless favorited — the exclude-list check. -/
def shouldIncludeBookmark (bookmarkTags includedTags excludedTags : List (List Char))
    (isFavorited : Bool) : FilterResult :=
  if decide (0 < includedTags.length) &&
      !(includedTags.any (fun t => bookmarkTags.contains t)) then
    ⟨false, some .missingIncludedTag⟩
  else if !isFavorited && decide (0 < excludedTags.length) &&
      (excludedTags.any (fun t => bookmarkTags.contains t)) then
    ⟨false, some .excludedTag⟩
  else
    ⟨true, none⟩

/-! ## Deletion/archival classifier (src/src/deletion-handler.ts) -/

inductive DeletionAction where
  | delete
  | archive
  | tag
  | ignore
  deriving DecidableEq

inductive FileReason where
  | deleted
  | archived
  deriving DecidableEq

structure DeletionSettings where
  syncDeletions : Bool
  deletionAction : DeletionAction
  handleArchivedBookmarks : Bool
  archivedBookmarkAction : DeletionAction
  deriving DecidableEq

structure FileHandlingInstruction where
  bookmarkId : List Char
  action : DeletionAction
  reason : FileReason
  deriving DecidableEq

structure DeletionResults where
  deleted : Nat
  archived : Nat
  tagged : Nat
  archivedHandled : Nat
  deriving DecidableEq

/-- Loop body of `determineDeletionActions` for one local id. -/
def deletionStep (activeBookmarkIds archivedBookmarkIds : List (List Char))
    (settings : DeletionSettings) (acc : List FileHandlingInstruction)
    (bookmarkId : List Char) : List FileHandlingInstruction :=
  let isActive := activeBookmarkIds.contains bookmarkId
  let isArchived := archivedBookmarkIds.contains bookmarkId
  if !isActive && !isArchived then
    if settings.syncDeletions && decide (settings.deletionAction ≠ .ignore) then
      acc ++ [⟨bookmarkId, settings.deletionAction, .deleted⟩]
    else acc
  else if !isActive && isArchived then
    if settings.handleArchivedBookmarks &&
        decide (settings.archivedBookmarkAction ≠ .ignore) then
      acc ++ [⟨bookmarkId, settings.archivedBookmarkAction, .archived⟩]
    else acc
  else acc

/-- `determineDeletionActions`: early return when both policy flags are off,
otherwise one instruction per locally present, remotely deleted or archived
id, in the order of `localBookmarkIds`. -/
def determineDeletionActions (localBookmarkIds : List (List Char))
    (activeBookmarkIds archivedBookmarkIds : List (List Char))
    (settings : DeletionSettings) : List FileHandlingInstruction :=
  if !settings.syncDeletions && !settings.handleArchivedBookmarks then []
  else localBookmarkIds.foldl
    (deletionStep activeBookmarkIds archivedBookmarkIds settings) []

/-- Loop body of `countDeletionResults` for one instruction. -/
def countStep (r : DeletionResults) (i : FileHandlingInstruction) : DeletionResults :=
  match i.reason with
  | .deleted =>
    match i.action with
    | .delete => { r with deleted := r.deleted + 1 }
    | .archive => { r with archived := r.archived + 1 }
    | .tag => { r with tagged := r.tagged + 1 }
    | .ignore => r
  | .archived => { r with archivedHandled := r.archivedHandled + 1 }

/-- `countDeletionResults`: bucket `reason=deleted` instructions by action
(`ignore` falls through the switch uncounted), count every `reason=archived`
instruction as `archivedHandled`. -/
def countDeletionResults (instructions : List FileHandlingInstruction) : DeletionResults :=
  instructions.foldl countStep ⟨0, 0, 0, 0⟩

/-! ## Bookmark model (src/src/hoarder-client.ts types, at the proof's
level of abstraction) -/

inductive ContentType where
  | link
  | text
  | asset
  | unknown
  deriving DecidableEq

/-- The fields of the platform `URL` object used by `extractTitleFromUrl`.
URL parsing itself is a platform service; a bookmark carries its result. -/
structure UrlParts where
  pathname : List Char
  hostname : List Char
  deriving DecidableEq

/-- The content variant of a bookmark.  `urlParsed`/`sourceUrlParsed` hold
the platform's `new URL(...)` result for `url`/`sourceUrl` (`none` models a
parse failure, the `catch` branch of the source). -/
structure BookmarkContent where
  ctype : ContentType
  url : Option (List Char)
  title : Option (List Char)
  description : Option (List Char)
  text : Option (List Char)
  sourceUrl : Option (List Char)
  fileName : Option (List Char)
  urlParsed : Option UrlParts
  sourceUrlParsed : Option UrlParts
  deriving DecidableEq

/-- A remote bookmark as the core sees it.  `createdAtIso` and
`modifiedAtIso` are the platform's `new Date(...).toISOString()` renderings
of the corresponding timestamp fields. -/
structure Bookmark where
  id : List Char
  createdAtIso : List Char
  modifiedAtIso : Option (List Char)
  title : Option (List Char)
  note : Option (List Char)
  summary : Option (List Char)
  tags : List (List Char)
  content : BookmarkContent
  deriving DecidableEq

/-! ## Title resolver (src/src/bookmark-utils.ts) -/

/-- `fileName.replace(/\.[^\/.]+$/, "")`: strip one trailing dot-extension
whose extension part is non-empty and free of dots and slashes. -/
def stripExt (s : List Char) : List Char :=
  let r := s.reverse
  let e := r.takeWhile (fun c => !(c == '.' || c == '/'))
  match r.drop e.length with
  | '.' :: rest => if e.isEmpty then s else rest.reverse
  | _ => s

/-- Replace every dash and underscore with a space (the global
dash-or-underscore regex replacement of the source). -/
def dashesToSpaces (s : List Char) : List Char :=
  s.map (fun c => if c == '-' || c == '_' then ' ' else c)

/-- `hostname.replace(/^www\./, "")`. -/
def dropWww (h : List Char) : List Char :=
  if ("www.".toList).isPrefixOf h then h.drop 4 else h

/-- `extractTitleFromUrl` from src/src/bookmark-utils.ts: on parse failure
return the raw URL; otherwise the last path segment without extension with
dashes/underscores as spaces, falling back to the hostname without a
leading `www.`. -/
def extractTitleFromUrl (url : List Char) (parsed : Option UrlParts) : List Char :=
  match parsed with
  | none => url
  | some u =>
    let pathTitle :=
      dashesToSpaces (stripExt ((splitOnChar '/' u.pathname).getLastD []))
    if pathTitle.isEmpty then dropWww u.hostname else pathTitle

/-- `extractTitleFromText`: first line, truncated to 100 characters
(97 + `...`) when longer. -/
def extractTitleFromText (text : List Char) : List Char :=
  let firstLine := (splitOnChar '\n' text).headD []
  if firstLine.length ≤ 100 then firstLine
  else firstLine.take 97 ++ ("...".toList)

/-- `createdAt` ISO string with everything from the first `T` on removed:
`new Date(...).toISOString().split("T")[0]`. -/
def isoDatePart (iso : List Char) : List Char :=
  iso.takeWhile (fun c => !(c == 'T'))

/-- The structural fallback title of the resolver. -/
def bookmarkFallbackTitle (b : Bookmark) : List Char :=
  ("Bookmark-".toList) ++ b.id ++ '-' :: isoDatePart b.createdAtIso

/-- `getBookmarkTitle` from src/src/bookmark-utils.ts: explicit title,
then content-variant-specific sources, then the structural fallback. -/
def getBookmarkTitle (b : Bookmark) : List Char :=
  if jsTruthy b.title then jsStr b.title
  else
    match b.content.ctype with
    | .link =>
      if jsTruthy b.content.title then jsStr b.content.title
      else if jsTruthy b.content.url then
        extractTitleFromUrl (jsStr b.content.url) b.content.urlParsed
      else bookmarkFallbackTitle b
    | .text =>
      if jsTruthy b.content.text then extractTitleFromText (jsStr b.content.text)
      else bookmarkFallbackTitle b
    | .asset =>
      if jsTruthy b.content.fileName then stripExt (jsStr b.content.fileName)
      else if jsTruthy b.content.sourceUrl then
        extractTitleFromUrl (jsStr b.content.sourceUrl) b.content.sourceUrlParsed
      else bookmarkFallbackTitle b
    | .unknown => bookmarkFallbackTitle b

/-- Side conditions under which every intermediate title source of
`getBookmarkTitle` is non-empty: a non-empty text has a non-empty first
line (after truncation), a non-empty URL yields a non-empty derived title,
a non-empty file name survives extension stripping. -/
def titleSourcesOk (b : Bookmark) : Bool :=
  ((jsStr b.content.text).isEmpty ||
    !(extractTitleFromText (jsStr b.content.text)).isEmpty) &&
  ((jsStr b.content.url).isEmpty ||
    !(extractTitleFromUrl (jsStr b.content.url) b.content.urlParsed).isEmpty) &&
  ((jsStr b.content.fileName).isEmpty ||
    !(stripExt (jsStr b.content.fileName)).isEmpty) &&
  ((jsStr b.content.sourceUrl).isEmpty ||
    !(extractTitleFromUrl (jsStr b.content.sourceUrl) b.content.sourceUrlParsed).isEmpty)

/-! ## Filename builder (src/src/filename-utils.ts) -/

/-- The filesystem-hostile characters replaced by `-`:
backslash, slash, colon, star, question mark, double quote,
angle brackets, pipe. -/
def fsHostileChars : List Char :=
  ['\\', '/', ':', '*', '?', '"', '<', '>', '|']

/-- Index of the last occurrence of `c` in `s` (JS `lastIndexOf`, with
`none` for `-1`). -/
def lastIndexOfChar (c : Char) (s : List Char) : Option Nat :=
  match (s.reverse).findIdx? (fun x => x == c) with
  | some j => some (s.length - 1 - j)
  | none => none

/-- Remove one leading dash (`str.replace(/^-|-$/g, "")`, first half). -/
def dropLeadingDash : List Char → List Char
  | '-' :: cs => cs
  | cs => cs

/-- Title sanitization of `sanitizeFileName`: hostile characters to `-`,
whitespace runs to `-`, dash runs collapsed, one leading/trailing dash
removed. -/
def sanitizeTitlePart (title : List Char) : List Char :=
  let a := title.map (fun c => if fsHostileChars.contains c then '-' else c)
  let b := collapseRuns isJsWs '-' a
  let c := collapseRuns (fun x => x == '-') '-' b
  (dropLeadingDash ((dropLeadingDash c).reverse)).reverse

/-- The 36-character truncation of `sanitizeFileName`, preferring a cut at
the last dash when it lies past the midpoint. -/
def truncateTitlePart (t : List Char) : List Char :=
  if t.length > 36 then
    let truncated := t.take 36
    match lastIndexOfChar '-' truncated with
    | some i => if 18 < i then truncated.take i else truncated
    | none => truncated
  else t

/-- `sanitizeFileName` from src/src/filename-utils.ts:
`YYYY-MM-DD-sanitized-title`, the date part being
`new Date(createdAt).toISOString().split("T")[0]`. -/
def sanitizeFileName (title : List Char) (createdAtIso : List Char) : List Char :=
  isoDatePart createdAtIso ++ '-' :: truncateTitlePart (sanitizeTitlePart title)

/-- A valid creation timestamp: its ISO rendering starts with the standard
10-character `YYYY-MM-DD` calendar date (as `toISOString` guarantees for
dates in years 0–9999). -/
def validCreatedAtIso (iso : List Char) : Bool :=
  (isoDatePart iso).length == 10

/-! ## Document renderer (src/unnamed/part_003, `formatBookmarkAsMarkdown`)

The asynchronous asset pipeline (`processBookmarkAssets`) downloads files
and returns embed text plus frontmatter entries; its results enter the
renderer as the parameters `assetContent` and `assetsFm`. -/

inductive HighlightColor where
  | yellow
  | red
  | green
  | blue
  deriving DecidableEq

def colorText : HighlightColor → List Char
  | .yellow => "yellow".toList
  | .red => "red".toList
  | .green => "green".toList
  | .blue => "blue".toList

/-- A highlight; `createdAtLocale` is the platform's
`toLocaleDateString("en-US", ...)` rendering of its creation timestamp. -/
structure Highlight where
  startOffset : Nat
  endOffset : Nat
  color : HighlightColor
  text : List Char
  note : List Char
  createdAtLocale : List Char
  deriving DecidableEq

/-- Stable insertion of a highlight into a list sorted by start offset. -/
def insertByOffset (x : Highlight) : List Highlight → List Highlight
  | [] => [x]
  | y :: ys =>
    if x.startOffset ≤ y.startOffset then x :: y :: ys
    else y :: insertByOffset x ys

/-- `highlights.sort((a, b) => a.startOffset - b.startOffset)`: the stable
ascending sort by start offset (JS `Array.prototype.sort` is stable). -/
def sortHighlights : List Highlight → List Highlight
  | [] => []
  | x :: xs => insertByOffset x (sortHighlights xs)

def concatAll : List (List Char) → List Char
  | [] => []
  | l :: ls => l ++ concatAll ls

/-- The quoted note lines of one highlight: the first line carries the
`Note: ` label, subsequent lines are bare italics. -/
def highlightNoteLines : List (List Char) → List Char
  | [] => []
  | l :: ls =>
    ("> *Note: ".toList) ++ l ++ ("*\n".toList) ++
    concatAll (ls.map (fun li => ("> *".toList) ++ li ++ ("*\n".toList)))

/-- One rendered highlight block: callout header with color and date,
quoted text lines, optional note lines, trailing blank line. -/
def highlightBlock (h : Highlight) : List Char :=
  let textPart :=
    concatAll ((splitOnChar '\n' h.text).map (fun l => ("> ".toList) ++ l ++ ['\n']))
  let notePart :=
    if !h.note.isEmpty && !(jsTrim h.note).isEmpty then
      (">\n".toList) ++ highlightNoteLines (splitOnChar '\n' h.note)
    else []
  ("> [!karakeep-".toList) ++ colorText h.color ++ ("] ".toList) ++
    h.createdAtLocale ++ ['\n'] ++ textPart ++ notePart ++ ['\n']

def highlightsSection (hl : List Highlight) : List Char :=
  ("\n## Highlights\n\n".toList) ++ concatAll ((sortHighlights hl).map highlightBlock)

/-- Top-level asset frontmatter entries collected by the asset pipeline
(wikilinks).  The source key of `fullPageArchive` is `full_page_archive`. -/
structure AssetsFrontmatter where
  image : Option (List Char)
  banner : Option (List Char)
  screenshot : Option (List Char)
  fullPageArchive : Option (List Char)
  video : Option (List Char)
  additional : List (List Char)
  deriving DecidableEq

/-- The `assetsYaml` block of the renderer: one line per present entry,
then `lines.join("\n") + "\n"`; empty when no frontmatter was produced. -/
def assetsYamlOf : Option AssetsFrontmatter → List Char
  | none => []
  | some fm =>
    let ls : List (List Char) :=
      (if jsTruthy fm.image then [("image: ".toList) ++ jsStr fm.image] else []) ++
      (if jsTruthy fm.banner then [("banner: ".toList) ++ jsStr fm.banner] else []) ++
      (if jsTruthy fm.screenshot then
        [("screenshot: ".toList) ++ jsStr fm.screenshot] else []) ++
      (if jsTruthy fm.fullPageArchive then
        [("full_page_archive: ".toList) ++ jsStr fm.fullPageArchive] else []) ++
      (if jsTruthy fm.video then [("video: ".toList) ++ jsStr fm.video] else []) ++
      (if !fm.additional.isEmpty then
        ("additional:".toList) :: fm.additional.map (fun link => ("  - ".toList) ++ link)
      else [])
    (List.intercalate ['\n'] ls) ++ ['\n']

/-- The settings fields the renderer reads. -/
structure RenderSettings where
  syncHighlights : Bool
  apiEndpoint : List Char
  deriving DecidableEq

/-- `url` as computed by the renderer: the link URL for link content, the
source URL otherwise. -/
def bookmarkUrl (b : Bookmark) : Option (List Char) :=
  match b.content.ctype with
  | .link => b.content.url
  | _ => b.content.sourceUrl

/-- `description` as computed by the renderer: the link description for
link content, the text otherwise. -/
def bookmarkDescription (b : Bookmark) : Option (List Char) :=
  match b.content.ctype with
  | .link => b.content.description
  | _ => b.content.text

/-- The `View in Hoarder` target:
`apiEndpoint.replace("/api/v1", "/dashboard/preview")` plus `/id`. -/
def hoarderViewUrl (st : RenderSettings) (b : Bookmark) : List Char :=
  replaceFirst ("/api/v1".toList) ("/dashboard/preview".toList) st.apiEndpoint ++
    '/' :: b.id

/-- The YAML frontmatter block of the rendered document. -/
def renderFrontmatter (b : Bookmark) (title : List Char)
    (assetsFm : Option AssetsFrontmatter) : List Char :=
  ("---\nbookmark_id: \"".toList) ++ b.id ++ ("\"\nurl: ".toList) ++
  escapeYaml (bookmarkUrl b) ++ ("\ntitle: ".toList) ++ escapeYaml (some title) ++
  ("\ndate: ".toList) ++ b.createdAtIso ++ ['\n'] ++
  (if jsTruthy b.modifiedAtIso then
    ("modified: ".toList) ++ jsStr b.modifiedAtIso ++ ['\n']
  else []) ++
  ("tags:\n  - ".toList) ++ List.intercalate ("\n  - ".toList) (b.tags.map escapeTag) ++
  ("\nnote: ".toList) ++ escapeYaml b.note ++
  ("\noriginal_note: ".toList) ++ escapeYaml b.note ++
  ("\nsummary: ".toList) ++ escapeYaml b.summary ++ ['\n'] ++
  assetsYamlOf assetsFm ++ ("\n---\n\n# ".toList) ++ title ++ ['\n']

/-- Everything the renderer emits before the Notes section: frontmatter,
asset embeds, optional Summary, Description and Highlights sections. -/
def docBeforeNotes (b : Bookmark) (title : List Char) (highlights : List Highlight)
    (assetContent : List Char) (assetsFm : Option AssetsFrontmatter)
    (st : RenderSettings) : List Char :=
  renderFrontmatter b title assetsFm ++ assetContent ++
  (if jsTruthy b.summary then
    ("\n## Summary\n\n".toList) ++ jsStr b.summary ++ ['\n']
  else []) ++
  (if jsTruthy (bookmarkDescription b) then
    ("\n## Description\n\n".toList) ++ jsStr (bookmarkDescription b) ++ ['\n']
  else []) ++
  (if decide (0 < highlights.length) && st.syncHighlights then
    highlightsSection highlights
  else [])

/-- The always-present Notes section: `\n## Notes\n\n${bookmark.note || ""}\n`. -/
def notesSectionOf (b : Bookmark) : List Char :=
  ("\n## Notes\n\n".toList) ++ jsStr b.note ++ ['\n']

/-- Everything the renderer emits after the Notes section: the optional
`Visit Link` line (omitted for pure-asset bookmarks) and the
`View in Hoarder` link. -/
def docAfterNotes (b : Bookmark) (st : RenderSettings) : List Char :=
  (if jsTruthy (bookmarkUrl b) && decide (b.content.ctype ≠ .asset) then
    ("\n[Visit Link](".toList) ++ escapeMarkdownPath (jsStr (bookmarkUrl b)) ++
      (")\n".toList)
  else []) ++
  ("\n[View in Hoarder](".toList) ++ escapeMarkdownPath (hoarderViewUrl st b) ++ [')']

/-- `formatBookmarkAsMarkdown`: the full rendered document. -/
def formatBookmarkAsMarkdown (b : Bookmark) (title : List Char)
    (highlights : List Highlight) (assetContent : List Char)
    (assetsFm : Option AssetsFrontmatter) (st : RenderSettings) : List Char :=
  docBeforeNotes b title highlights assetContent assetsFm st ++
    notesSectionOf b ++ docAfterNotes b st

/-! ## Notes extractor (src/unnamed/part_002, `extractNotesSection`) -/

/-- The literal head of the extraction regex. -/
def notesMarker : List Char := "## Notes\n\n".toList

/-- The lookahead of the extraction regex: stop before a section header
line (newline, hash, hash) or a link line (newline, opening bracket). -/
def notesStopHere (r : List Char) : Bool :=
  (['\n', '#', '#']).isPrefixOf r || (['\n', '[']).isPrefixOf r

/-- The lazy capture: the shortest prefix ending where the lookahead
matches (or the whole text). -/
def captureUntilStop : List Char → List Char
  | [] => []
  | c :: cs => if notesStopHere (c :: cs) then [] else c :: captureUntilStop cs

/-- `extractNotesSection`: match the regex
`## Notes\n\n([\s\S]*?)(?=\n##|\n\[|$)` against the content and return the
trimmed capture, `null` when the marker does not occur. -/
def extractNotesSection (content : List Char) : Option (List Char) :=
  match afterFirst notesMarker content with
  | none => none
  | some rest => some (jsTrim (captureUntilStop rest))

/-! ## Sync pass entry (src/src/main.ts and src/unnamed/part_003,
`syncBookmarks`)

The body of a sync pass performs remote and file I/O; it is modelled as a
function from the state at pass start to a result, a final state and the
list of I/O effects it performed.  The guards and the `finally` block
around it are translated from the source. -/

structure SyncResult where
  success : Bool
  message : List Char
  deriving DecidableEq

inductive SyncEffect where
  | remoteFetch
  | fileCreate
  | fileWrite
  | fileDelete
  | fileRename
  | noteUpstreamPush
  deriving DecidableEq

/-- The plugin state read or written by `syncBookmarks` outside its
try-block. -/
structure PluginSyncState where
  isSyncing : Bool
  apiKey : List Char
  lastSyncTimestamp : Nat
  skippedFiles : Nat
  deriving DecidableEq

/-- `syncBookmarks`: reject when a pass is already running; reject when no
API key is configured; otherwise run the pass body with the flag set and
clear it afterwards (the `finally` block). -/
def syncBookmarks (st : PluginSyncState)
    (passBody : PluginSyncState → SyncResult × PluginSyncState × List SyncEffect) :
    SyncResult × PluginSyncState × List SyncEffect :=
  if st.isSyncing then
    (⟨false, ("Sync already in progress".toList)⟩, st, [])
  else if st.apiKey.isEmpty then
    (⟨false, ("Hoarder API key not configured".toList)⟩, st, [])
  else
    let r := passBody { st with isSyncing := true, skippedFiles := 0 }
    (r.1, { r.2.1 with isSyncing := false, skippedFiles := 0 }, r.2.2)

/-! ## Concrete sample data used by witnesses and counterexamples -/

/-- A content record with every optional field absent. -/
def blankContent : BookmarkContent :=
  ⟨.unknown, none, none, none, none, none, none, none, none⟩

def stdRenderSettings : RenderSettings :=
  ⟨false, ("https://api.hoarder.app/api/v1".toList)⟩

/-- A text bookmark whose text starts with a newline: its first line is
empty. -/
def cexTextBookmark : Bookmark :=
  ⟨("b1".toList), ("2024-01-15T10:30:00.000Z".toList), none, none, none, none, [],
   ⟨.text, none, none, none, some ("\nfoo".toList), none, none, none, none⟩⟩

/-- A well-behaved text bookmark. -/
def witTextBookmark : Bookmark :=
  ⟨("b2".toList), ("2024-01-15T10:30:00.000Z".toList), none, none, none, none, [],
   ⟨.text, none, none, none, some ("hello".toList), none, none, none, none⟩⟩

/-- A bookmark whose summary itself contains the Notes section marker. -/
def cexSummaryBookmark : Bookmark :=
  ⟨("b1".toList), ("2024-01-15T10:30:00.000Z".toList), none, none,
   some ("hello".toList), some ("## Notes\n\nX".toList), [],
   ⟨.text, none, none, none, none, none, none, none, none⟩⟩

/-- A bookmark with an ordinary summary and a two-line note. -/
def witRoundtripBookmark : Bookmark :=
  ⟨("b3".toList), ("2024-01-15T10:30:00.000Z".toList), none, none,
   some ("hello\nworld".toList), some ("A fine summary".toList), [],
   ⟨.text, none, none, none, none, none, none, none, none⟩⟩

/-- The instruction list refuting unrestricted disposition-count
completeness: one `ignore`-action instruction with reason `deleted`. -/
def cexIgnoreDeletedList : List FileHandlingInstruction :=
  [⟨("x".toList), .ignore, .deleted⟩]

/-- A state in which a sync pass is already running. -/
def demoBusyState : PluginSyncState :=
  ⟨true, ("key".toList), 5, 2⟩

/-- A pass body performing one remote fetch. -/
def demoPassBody (s : PluginSyncState) : SyncResult × PluginSyncState × List SyncEffect :=
  (⟨true, ("ok".toList)⟩, s, [SyncEffect.remoteFetch])

/-! ## Helper lemmas -/

theorem isPrefixOf_self_append (p t : List Char) : p.isPrefixOf (p ++ t) = true := by
  induction p with
  | nil => simp [List.isPrefixOf]
  | cons c p ih => simp [List.isPrefixOf, ih]

theorem isPrefixOf_of_append_le {p y : List Char} (z : List Char)
    (h : p.isPrefixOf (y ++ z) = true) (hl : p.length ≤ y.length) :
    p.isPrefixOf y = true := by
  induction p generalizing y with
  | nil => simp [List.isPrefixOf]
  | cons c p ih =>
    cases y with
    | nil => simp at hl
    | cons d y' =>
      simp only [List.cons_append, List.isPrefixOf, Bool.and_eq_true] at h ⊢
      exact ⟨h.1, ih h.2 (by simpa using Nat.lt_succ_iff.mp (Nat.lt_of_lt_of_le (Nat.lt_succ_self _) (by simpa using hl)))⟩

theorem containsSeq_of_isPrefixOf {p s : List Char} (h : p.isPrefixOf s = true) :
    containsSeq p s = true := by
  cases s with
  | nil => simpa [containsSeq] using h
  | cons c cs => simp [containsSeq, h]

theorem containsSeq_cons_false (p : List Char) (c : Char) (cs : List Char)
    (h : containsSeq p (c :: cs) = false) :
    p.isPrefixOf (c :: cs) = false ∧ containsSeq p cs = false := by
  simpa [containsSeq] using h

theorem afterFirst_eq_of_prefix {p s : List Char} (hp : p.isPrefixOf s = true) :
    afterFirst p s = some (s.drop p.length) := by
  cases s <;> simp [afterFirst, hp]

/-- The first occurrence of the pattern `q ++ [c]` in `a ++ (q ++ [c]) ++ b`
is the displayed one when no occurrence starts inside `a`. -/
theorem afterFirst_first_occurrence (q : List Char) (c : Char) (a b : List Char)
    (h : containsSeq (q ++ [c]) (a ++ q) = false) :
    afterFirst (q ++ [c]) (a ++ (q ++ [c]) ++ b) = some b := by
  induction a with
  | nil =>
    rw [List.nil_append, afterFirst_eq_of_prefix (isPrefixOf_self_append _ _)]
    simp
  | cons x a' ih =>
    have hparts := containsSeq_cons_false (q ++ [c]) x (a' ++ q) h
    have hnp : (q ++ [c]).isPrefixOf (x :: (a' ++ (q ++ [c]) ++ b)) = false := by
      by_contra hcon
      rw [Bool.not_eq_false] at hcon
      have hre : x :: (a' ++ (q ++ [c]) ++ b) = (x :: (a' ++ q)) ++ ([c] ++ b) := by
        simp [List.append_assoc]
      rw [hre] at hcon
      have hpq : (q ++ [c]).isPrefixOf (x :: (a' ++ q)) = true := by
        refine isPrefixOf_of_append_le _ hcon ?_
        simp
      have hcs := containsSeq_of_isPrefixOf hpq
      rw [show x :: (a' ++ q) = (x :: a') ++ q by simp] at hcs
      rw [hcs] at h
      simp at h
    have key : afterFirst (q ++ [c]) (x :: (a' ++ (q ++ [c]) ++ b))
        = afterFirst (q ++ [c]) (a' ++ (q ++ [c]) ++ b) := by
      rw [afterFirst, hnp]
      simp
    show afterFirst (q ++ [c]) (x :: (a' ++ (q ++ [c]) ++ b)) = some b
    rw [key]
    exact ih hparts.2

/-- `[].isPrefixOf t` is true (it does not reduce definitionally for an
unknown `t`). -/
theorem isPrefixOf_nil_left (t : List Char) : List.isPrefixOf ([] : List Char) t = true := by
  simp [List.isPrefixOf_iff_prefix]

/-- The lazy capture on the tail produced by the renderer: the note text
plus its trailing newline, stopping at the following link line, provided no
line of the note itself starts a section header or a link. -/
theorem captureUntilStop_notes (n t : List Char)
    (h1 : containsSeq ['\n', '#', '#'] n = false)
    (h2 : containsSeq ['\n', '['] n = false) :
    captureUntilStop (n ++ '\n' :: '\n' :: '[' :: t) = n ++ ['\n'] := by
  induction n with
  | nil =>
    simp only [List.nil_append]
    rw [captureUntilStop,
      show notesStopHere ('\n' :: '\n' :: '[' :: t) = false from rfl]
    simp only [Bool.false_eq_true, if_false]
    rw [captureUntilStop,
      show notesStopHere ('\n' :: '[' :: t) = List.isPrefixOf ([] : List Char) t from rfl,
      isPrefixOf_nil_left]
    simp
  | cons c n' ih =>
    have hp1 := containsSeq_cons_false ['\n', '#', '#'] c n' h1
    have hp2 := containsSeq_cons_false ['\n', '['] c n' h2
    have hstop : notesStopHere (c :: (n' ++ '\n' :: '\n' :: '[' :: t)) = false := by
      by_cases hc : c = '\n'
      · subst hc
        have f1 : List.isPrefixOf ['#', '#'] n' = false := by
          have h := hp1.1
          simpa [List.isPrefixOf] using h
        have f2 : List.isPrefixOf ['['] n' = false := by
          have h := hp2.1
          simpa [List.isPrefixOf] using h
        have g1 : List.isPrefixOf ['#', '#'] (n' ++ '\n' :: '\n' :: '[' :: t) = false := by
          cases n' with
          | nil => rfl
          | cons d m =>
            cases m with
            | nil =>
              show (('#' == d) && List.isPrefixOf ['#'] ('\n' :: '\n' :: '[' :: t)) = false
              rw [show List.isPrefixOf ['#'] ('\n' :: '\n' :: '[' :: t) = false from rfl]
              simp
            | cons e m2 =>
              have f1x : (('#' == d) && (('#' == e) && List.isPrefixOf [] m2)) = false := f1
              rw [isPrefixOf_nil_left] at f1x
              show (('#' == d) && (('#' == e) &&
                List.isPrefixOf [] (m2 ++ '\n' :: '\n' :: '[' :: t))) = false
              rw [isPrefixOf_nil_left]
              exact f1x
        have g2 : List.isPrefixOf ['['] (n' ++ '\n' :: '\n' :: '[' :: t) = false := by
          cases n' with
          | nil => rfl
          | cons d m =>
            have f2x : (('[' == d) && List.isPrefixOf [] m) = false := f2
            rw [isPrefixOf_nil_left] at f2x
            show (('[' == d) && List.isPrefixOf [] (m ++ '\n' :: '\n' :: '[' :: t)) = false
            rw [isPrefixOf_nil_left]
            exact f2x
        show (List.isPrefixOf ['\n', '#', '#'] ('\n' :: (n' ++ '\n' :: '\n' :: '[' :: t)) ||
          List.isPrefixOf ['\n', '['] ('\n' :: (n' ++ '\n' :: '\n' :: '[' :: t))) = false
        simp [List.isPrefixOf, g1, g2]
      · have hbc : (('\n' : Char) == c) = false := by
          simp only [beq_eq_false_iff_ne, ne_eq]
          exact fun h => hc h.symm
        show (List.isPrefixOf ['\n', '#', '#'] (c :: (n' ++ '\n' :: '\n' :: '[' :: t)) ||
          List.isPrefixOf ['\n', '['] (c :: (n' ++ '\n' :: '\n' :: '[' :: t))) = false
        simp [List.isPrefixOf, hbc]
    show captureUntilStop (c :: (n' ++ '\n' :: '\n' :: '[' :: t)) = (c :: n') ++ ['\n']
    rw [captureUntilStop, hstop]
    simp only [Bool.false_eq_true, if_false, List.cons_append]
    rw [ih hp1.2 hp2.2]

theorem dropWhile_eq_self_of_none {p : Char → Bool} {s : List Char}
    (h : ∀ c ∈ s, p c = false) : s.dropWhile p = s := by
  cases s with
  | nil => rfl
  | cons c cs =>
    rw [List.dropWhile_cons, if_neg (by simp [h c (by simp)])]

theorem jsTrim_eq_self_of_no_ws {s : List Char}
    (h : ∀ c ∈ s, isJsWs c = false) : jsTrim s = s := by
  unfold jsTrim
  rw [dropWhile_eq_self_of_none h,
    dropWhile_eq_self_of_none (fun c hc => h c (List.mem_reverse.mp hc)),
    List.reverse_reverse]

theorem jsTrim_append_ws {s : List Char} {c : Char} (hc : isJsWs c = true) :
    jsTrim (s ++ [c]) = jsTrim s := by
  unfold jsTrim
  rw [List.dropWhile_append]
  by_cases he : (s.dropWhile isJsWs).isEmpty
  · rw [if_pos he]
    have hs : s.dropWhile isJsWs = [] := by simpa [List.isEmpty_iff] using he
    rw [hs]
    simp [List.dropWhile, hc]
  · rw [if_neg he]
    have : (s.dropWhile isJsWs ++ [c]).reverse = c :: (s.dropWhile isJsWs).reverse := by
      simp
    rw [this, List.dropWhile_cons, if_pos (by simp [hc])]

/-! ## Claim theorems -/

/-- C10: `escapeYaml` maps `null`, `undefined` (both modelled by `none`,
which the source collapses via `if (!str)`) and the empty string to the
empty string, so an absent or empty note, summary or url is rendered as an
empty header scalar — no quoting, no block-scalar marker. -/
theorem escapeYaml_empty_inputs :
    escapeYaml none = [] ∧ escapeYaml (some []) = [] :=
  ⟨rfl, rfl⟩

/-- C9: for every input, the result of `shouldIncludeBookmark` carries a
reason exactly when it excludes: an excluded result carries exactly one of
the two reasons and an included result carries none. -/
theorem shouldIncludeBookmark_reason_invariant
    (bookmarkTags includedTags excludedTags : List (List Char)) (isFavorited : Bool) :
    (let r := shouldIncludeBookmark bookmarkTags includedTags excludedTags isFavorited
     (r.includeFlag = true ∧ r.reason = none) ∨
       (r.includeFlag = false ∧
         (r.reason = some .missingIncludedTag ∨ r.reason = some .excludedTag))) := by
  unfold shouldIncludeBookmark
  split
  · exact Or.inr ⟨rfl, Or.inl rfl⟩
  · split
    · exact Or.inr ⟨rfl, Or.inr rfl⟩
    · exact Or.inl ⟨rfl, rfl⟩

/-- C3: with a non-empty include list that no bookmark tag intersects,
`shouldIncludeBookmark` answers `{include: false, reason:
missing_included_tag}` for every exclude list and favorite flag — the
include check runs first and the favorite flag bypasses only the exclude
check. -/
theorem shouldIncludeBookmark_include_dominates
    (bookmarkTags includedTags excludedTags : List (List Char)) (isFavorited : Bool)
    (hne : 0 < includedTags.length)
    (hmiss : includedTags.any (fun t => bookmarkTags.contains t) = false) :
    shouldIncludeBookmark bookmarkTags includedTags excludedTags isFavorited
      = ⟨false, some .missingIncludedTag⟩ := by
  unfold shouldIncludeBookmark
  rw [if_pos]
  rw [hmiss]
  simp [hne]

/-- Witness for C3: a favorited bookmark tagged `a`, include list `b`,
exclude list `a`. -/
theorem shouldIncludeBookmark_include_dominates_witness :
    shouldIncludeBookmark [("a".toList)] [("b".toList)] [("a".toList)] true
      = ⟨false, some .missingIncludedTag⟩ :=
  shouldIncludeBookmark_include_dominates [("a".toList)] [("b".toList)] [("a".toList)] true
    (by decide) (by decide)

/-- C8: when the in-progress flag is set at invocation, `syncBookmarks`
returns the distinct result `{success: false, message: "Sync already in
progress"}`, performs no effect (no remote fetch, no file operation), and
leaves the state — flag, counters and `lastSyncTimestamp` — unchanged,
whatever the pass body would do. -/
theorem syncBookmarks_single_flight (st : PluginSyncState)
    (passBody : PluginSyncState → SyncResult × PluginSyncState × List SyncEffect)
    (h : st.isSyncing = true) :
    syncBookmarks st passBody
      = (⟨false, ("Sync already in progress".toList)⟩, st, []) := by
  unfold syncBookmarks
  rw [if_pos h]

/-- Witness for C8: a busy state with a pass body that would fetch. -/
theorem syncBookmarks_single_flight_witness :
    syncBookmarks demoBusyState demoPassBody
      = (⟨false, ("Sync already in progress".toList)⟩, demoBusyState, []) :=
  syncBookmarks_single_flight demoBusyState demoPassBody rfl

/-- Any instruction produced by one classifier step either was already in
the accumulator or concerns an id that is not in the active set. -/
theorem mem_deletionStep {active archived : List (List Char)} {st : DeletionSettings}
    {acc : List FileHandlingInstruction} {x : List Char} {ins : FileHandlingInstruction}
    (h : ins ∈ deletionStep active archived st acc x) :
    ins ∈ acc ∨ (ins.bookmarkId = x ∧ active.contains x = false) := by
  unfold deletionStep at h
  by_cases ha : active.contains x
  · simp only [ha, Bool.not_true, Bool.false_and, Bool.false_eq_true, if_false] at h
    exact Or.inl h
  · rw [Bool.not_eq_true] at ha
    simp only [ha, Bool.not_false, Bool.true_and] at h
    by_cases hb : archived.contains x
    · simp only [hb, Bool.not_true, Bool.false_eq_true, if_false, if_true] at h
      split at h
      · rcases List.mem_append.mp h with h' | h'
        · exact Or.inl h'
        · simp only [List.mem_singleton] at h'
          subst h'
          exact Or.inr ⟨rfl, ha⟩
      · exact Or.inl h
    · rw [Bool.not_eq_true] at hb
      simp only [hb, Bool.not_false, if_true] at h
      split at h
      · rcases List.mem_append.mp h with h' | h'
        · exact Or.inl h'
        · simp only [List.mem_singleton] at h'
          subst h'
          exact Or.inr ⟨rfl, ha⟩
      · exact Or.inl h

theorem foldl_deletionStep_not_active {active archived : List (List Char)}
    {st : DeletionSettings} {id : List Char} (hid : active.contains id = true) :
    ∀ (l : List (List Char)) (acc : List FileHandlingInstruction),
      (∀ ins ∈ acc, ins.bookmarkId ≠ id) →
      ∀ ins ∈ l.foldl (deletionStep active archived st) acc, ins.bookmarkId ≠ id := by
  intro l
  induction l with
  | nil => intro acc hacc ins hins; exact hacc ins hins
  | cons x xs ih =>
    intro acc hacc
    simp only [List.foldl_cons]
    refine ih _ ?_
    intro ins hins
    rcases mem_deletionStep hins with h | ⟨hbk, hact⟩
    · exact hacc ins h
    · intro he
      have hx : x = id := by rw [← hbk, he]
      rw [hx, hid] at hact
      simp at hact

/-- C2: `determineDeletionActions` emits no instruction for a local id that
is a member of the active set, for every input list, archived set and
settings value — active membership takes precedence over archived
membership and over all policy flags. -/
theorem determineDeletionActions_skip_active
    (localBookmarkIds activeBookmarkIds archivedBookmarkIds : List (List Char))
    (settings : DeletionSettings) (id : List Char)
    (hid : activeBookmarkIds.contains id = true) :
    ∀ ins ∈ determineDeletionActions localBookmarkIds activeBookmarkIds
        archivedBookmarkIds settings, ins.bookmarkId ≠ id := by
  unfold determineDeletionActions
  split
  · intro ins hins
    simp at hins
  · exact foldl_deletionStep_not_active hid localBookmarkIds [] (by intro ins h; simp at h)

/-- Witness for C2: ids `x`, `y` local, `y` active, deletion sync on — the
classifier emits only the instruction for `x`, never one for `y`. -/
theorem determineDeletionActions_skip_active_witness :
    List.contains [("y".toList)] ("y".toList) = true ∧
      (∀ ins ∈ determineDeletionActions [("x".toList), ("y".toList)]
        [("y".toList)] [] ⟨true, .delete, false, .ignore⟩,
        ins.bookmarkId ≠ ("y".toList)) :=
  ⟨by decide,
   determineDeletionActions_skip_active [("x".toList), ("y".toList)]
     [("y".toList)] [] ⟨true, .delete, false, .ignore⟩ ("y".toList) (by decide)⟩

/-- One counting step adds exactly one to the bucket total as long as the
instruction is not a `reason=deleted, action=ignore` one. -/
theorem countStep_total (r : DeletionResults) (i : FileHandlingInstruction)
    (h : i.reason = .deleted → i.action ≠ .ignore) :
    (countStep r i).deleted + (countStep r i).archived + (countStep r i).tagged +
        (countStep r i).archivedHandled
      = (r.deleted + r.archived + r.tagged + r.archivedHandled) + 1 := by
  rcases i with ⟨bid, act, rsn⟩
  cases rsn <;> cases act <;> simp [countStep] <;> try omega
  exact absurd rfl (h rfl)

theorem foldl_countStep_total :
    ∀ (l : List FileHandlingInstruction),
      (∀ i ∈ l, i.reason = .deleted → i.action ≠ .ignore) →
      ∀ (r : DeletionResults),
        ((l.foldl countStep r).deleted + (l.foldl countStep r).archived +
          (l.foldl countStep r).tagged + (l.foldl countStep r).archivedHandled)
        = (r.deleted + r.archived + r.tagged + r.archivedHandled) + l.length := by
  intro l
  induction l with
  | nil => intro _ r; simp
  | cons i is ih =>
    intro h r
    simp only [List.foldl_cons, List.length_cons]
    rw [ih (fun j hj => h j (List.mem_cons_of_mem _ hj)) (countStep r i),
      countStep_total r i (h i (List.mem_cons_self _ _))]
    omega

/-- C4 (amended): for every instruction list in which no `reason=deleted`
instruction carries the `ignore` action (the classifier never produces
one), the four counters of `countDeletionResults` sum to the length of the
list.  A `reason=deleted, action=ignore` instruction falls through the
switch uncounted, so the unrestricted claim fails. -/
theorem countDeletionResults_total (l : List FileHandlingInstruction)
    (h : ∀ i ∈ l, i.reason = .deleted → i.action ≠ .ignore) :
    (countDeletionResults l).deleted + (countDeletionResults l).archived +
        (countDeletionResults l).tagged + (countDeletionResults l).archivedHandled
      = l.length := by
  unfold countDeletionResults
  rw [foldl_countStep_total l h ⟨0, 0, 0, 0⟩]
  simp

/-- Counterexample for C4 as stated: the singleton list with action
`ignore` and reason `deleted` has length 1 but all four buckets zero. -/
theorem countDeletionResults_total_cex :
    ¬((countDeletionResults cexIgnoreDeletedList).deleted +
        (countDeletionResults cexIgnoreDeletedList).archived +
        (countDeletionResults cexIgnoreDeletedList).tagged +
        (countDeletionResults cexIgnoreDeletedList).archivedHandled
      = cexIgnoreDeletedList.length) := by
  decide

/-- Witness for C4: a two-instruction list with a deleted/delete and an
archived/tag instruction sums to 2. -/
theorem countDeletionResults_total_witness :
    (countDeletionResults [⟨("x".toList), .delete, .deleted⟩,
        ⟨("y".toList), .tag, .archived⟩]).deleted +
      (countDeletionResults [⟨("x".toList), .delete, .deleted⟩,
        ⟨("y".toList), .tag, .archived⟩]).archived +
      (countDeletionResults [⟨("x".toList), .delete, .deleted⟩,
        ⟨("y".toList), .tag, .archived⟩]).tagged +
      (countDeletionResults [⟨("x".toList), .delete, .deleted⟩,
        ⟨("y".toList), .tag, .archived⟩]).archivedHandled
    = List.length [(⟨("x".toList), .delete, .deleted⟩ : FileHandlingInstruction),
        ⟨("y".toList), .tag, .archived⟩] :=
  countDeletionResults_total
    [⟨("x".toList), .delete, .deleted⟩, ⟨("y".toList), .tag, .archived⟩]
    (by decide)

/-- The truncated title part never exceeds 36 characters. -/
theorem truncateTitlePart_length (t : List Char) : (truncateTitlePart t).length ≤ 36 := by
  have h36 : (List.take 36 t).length ≤ 36 := by
    simpa using List.length_take_le 36 t
  unfold truncateTitlePart
  split
  · cases hli : lastIndexOfChar '-' (List.take 36 t) with
    | none => simpa [hli] using h36
    | some i =>
      have hi35 : i ≤ 35 := by
        unfold lastIndexOfChar at hli
        split at hli
        · rename_i j hj
          simp only [Option.some.injEq] at hli
          omega
        · exact absurd hli (by simp)
      simp only [hli]
      split
      · have : (List.take i (List.take 36 t)).length ≤ i := by
          simpa using List.length_take_le i (List.take 36 t)
        omega
      · exact h36
  · omega

/-- C7: for every title and every valid creation timestamp (one whose ISO
date part is the standard 10-character `YYYY-MM-DD` form),
`sanitizeFileName` returns at most 47 characters (10 date + 1 separator +
at most 36 title characters, leaving a 3-character extension budget inside
the 50-character target) and always begins with the 10-character calendar
date followed by a hyphen. -/
theorem sanitizeFileName_bound (title createdAtIso : List Char)
    (h : validCreatedAtIso createdAtIso = true) :
    (sanitizeFileName title createdAtIso).length ≤ 47 ∧
      (isoDatePart createdAtIso).length = 10 ∧
      (isoDatePart createdAtIso ++ ['-']).isPrefixOf
        (sanitizeFileName title createdAtIso) = true := by
  have hd : (isoDatePart createdAtIso).length = 10 := by
    unfold validCreatedAtIso at h
    simpa using h
  refine ⟨?_, hd, ?_⟩
  · unfold sanitizeFileName
    have ht := truncateTitlePart_length (sanitizeTitlePart title)
    simp only [List.length_append, List.length_cons, hd]
    omega
  · unfold sanitizeFileName
    have : isoDatePart createdAtIso ++ '-' :: truncateTitlePart (sanitizeTitlePart title)
        = (isoDatePart createdAtIso ++ ['-']) ++ truncateTitlePart (sanitizeTitlePart title) := by
      simp
    rw [this]
    exact isPrefixOf_self_append _ _

/-- Witness for C7: a concrete title with hostile characters and a real
ISO timestamp. -/
theorem sanitizeFileName_bound_witness :
    (sanitizeFileName ("My: Big/Article?".toList) ("2024-01-15T10:30:00.000Z".toList)).length ≤ 47 ∧
      (isoDatePart ("2024-01-15T10:30:00.000Z".toList)).length = 10 ∧
      (isoDatePart ("2024-01-15T10:30:00.000Z".toList) ++ ['-']).isPrefixOf
        (sanitizeFileName ("My: Big/Article?".toList) ("2024-01-15T10:30:00.000Z".toList)) = true :=
  sanitizeFileName_bound ("My: Big/Article?".toList) ("2024-01-15T10:30:00.000Z".toList)
    (by decide)

/-- A character of the valid-tag class is not JS whitespace. -/
theorem isValidTagChar_not_ws {c : Char} (h : isValidTagChar c = true) :
    isJsWs c = false := by
  unfold isValidTagChar isDigitChar at h
  unfold isJsWs
  simp only [Bool.or_eq_true, Bool.and_eq_true, decide_eq_true_eq, beq_iff_eq] at h
  simp only [Bool.or_eq_false_iff, beq_eq_false_iff_ne, ne_eq]
  omega

theorem collapseRuns_eq_self {p : Char → Bool} {r : Char} :
    ∀ {s : List Char}, (∀ c ∈ s, p c = false) → collapseRuns p r s = s := by
  intro s
  induction s with
  | nil => intro _; rfl
  | cons c cs ih =>
    intro h
    have hc : p c = false := h c (by simp)
    cases cs with
    | nil => simp [collapseRuns, hc]
    | cons c' cs' =>
      have hc' : p c' = false := h c' (by simp)
      rw [collapseRuns]
      rw [hc, hc']
      simp only [Bool.and_false, Bool.false_eq_true, if_false]
      rw [ih (fun x hx => h x (List.mem_cons_of_mem _ hx))]

theorem all_digit_imp_digitSep {s : List Char} (h : s.all isDigitChar = true) :
    s.all isDigitSepChar = true := by
  simp only [List.all_eq_true] at h ⊢
  intro c hc
  simp [isDigitSepChar, h c hc]

/-- Every character of a non-null `sanitizeTag` output lies in the
valid-tag class, the output is non-empty, and the output does not consist
solely of digits and separators. -/
theorem sanitizeTag_output_shape {t s : List Char} (h : sanitizeTag t = some s) :
    (∀ c ∈ s, isValidTagChar c = true) ∧ s ≠ [] ∧ s.all isDigitSepChar = false := by
  unfold sanitizeTag at h
  dsimp only at h
  split at h
  · exact absurd h (by simp)
  · rename_i h0
    split at h
    · exact absurd h (by simp)
    · rename_i h2
      simp only [Option.some.injEq] at h
      subst h
      set s2 := (collapseRuns isJsWs '-' (jsTrim t)).filter isValidTagChar with hs2
      have hvalid2 : ∀ c ∈ s2, isValidTagChar c = true := by
        intro c hc
        exact (List.mem_filter.mp hc).2
      have hne2 : s2 ≠ [] := by
        simpa [List.isEmpty_iff] using h2
      have hvtag : ∀ c ∈ ("tag-".toList), isValidTagChar c = true := by decide
      by_cases hd : s2.all isDigitChar
      · -- step 6 fires; step 7 then sees a `t` and does not fire
        have hstep7 : ((("tag-".toList) ++ s2).all isDigitSepChar) = false := by
          simp only [List.all_eq_false]
          exact ⟨'t', by simp, by decide⟩
        simp only [hd, if_true, hstep7, Bool.false_eq_true, if_false]
        refine ⟨?_, by simp, by simp [hstep7]⟩
        intro c hc
        rcases List.mem_append.mp hc with hc | hc
        · exact hvtag c hc
        · exact hvalid2 c hc
      · simp only [hd, Bool.false_eq_true, if_false]
        by_cases hds : s2.all isDigitSepChar
        · have hstep7 : ((("tag-".toList) ++ s2).all isDigitSepChar) = false := by
            simp only [List.all_eq_false]
            exact ⟨'t', by simp, by decide⟩
          simp only [hds, if_true, hstep7, Bool.false_eq_true, if_false]
          refine ⟨?_, by simp, by simp [hstep7]⟩
          intro c hc
          rcases List.mem_append.mp hc with hc | hc
          · exact hvtag c hc
          · exact hvalid2 c hc
        · have hds' : s2.all isDigitSepChar = false := by
            simpa using hds
          simp only [hds', Bool.false_eq_true, if_false]
          exact ⟨hvalid2, hne2, by simp [hds']⟩

/-- A string that is non-empty, entirely in the valid-tag class, and not
all digits/separators is a fixed point of `sanitizeTag`. -/
theorem sanitizeTag_fixed {s : List Char} (hvalid : ∀ c ∈ s, isValidTagChar c = true)
    (hne : s ≠ []) (hnds : s.all isDigitSepChar = false) :
    sanitizeTag s = some s := by
  have hnws : ∀ c ∈ s, isJsWs c = false := fun c hc => isValidTagChar_not_ws (hvalid c hc)
  have h0 : jsTrim s = s := jsTrim_eq_self_of_no_ws hnws
  have h1 : collapseRuns isJsWs '-' s = s := collapseRuns_eq_self hnws
  have h2 : s.filter isValidTagChar = s := List.filter_eq_self.mpr (by
    intro c hc
    exact hvalid c hc)
  have h3 : s.all isDigitChar = false := by
    by_contra hcon
    rw [Bool.not_eq_false] at hcon
    rw [all_digit_imp_digitSep hcon] at hnds
    simp at hnds
  unfold sanitizeTag
  dsimp only
  rw [h0, h1, h2]
  have hie : s.isEmpty = false := by simpa [List.isEmpty_iff] using hne
  simp only [hie, Bool.false_eq_true, if_false, h3, hnds]

/-- C5: tag-sanitizer idempotence — whenever `sanitizeTag t` is non-null,
sanitizing its own output returns it unchanged:
`sanitizeTag (sanitizeTag t) = sanitizeTag t`. -/
theorem sanitizeTag_idempotent (t s : List Char) (h : sanitizeTag t = some s) :
    sanitizeTag s = some s := by
  obtain ⟨hvalid, hne, hnds⟩ := sanitizeTag_output_shape h
  exact sanitizeTag_fixed hvalid hne hnds

/-- Witness for C5: `"he llo!"` sanitizes to `"he-llo"`, which is a fixed
point. -/
theorem sanitizeTag_idempotent_witness :
    sanitizeTag ("he llo!".toList) = some ("he-llo".toList) ∧
      sanitizeTag ("he-llo".toList) = some ("he-llo".toList) :=
  ⟨by decide, sanitizeTag_idempotent ("he llo!".toList) ("he-llo".toList) (by decide)⟩

/-- A truthy optional string is non-empty when read. -/
theorem jsTruthy_jsStr {o : Option (List Char)} (h : jsTruthy o = true) :
    jsStr o ≠ [] := by
  cases o with
  | none => simp [jsTruthy] at h
  | some s =>
    simp only [jsTruthy, Bool.not_eq_true', List.isEmpty_eq_false] at h
    simpa [jsStr] using h

/-- The structural fallback title is never empty. -/
theorem bookmarkFallbackTitle_ne_nil (b : Bookmark) : bookmarkFallbackTitle b ≠ [] := by
  unfold bookmarkFallbackTitle
  intro h
  have : ("Bookmark-".toList) ++ (b.id ++ '-' :: isoDatePart b.createdAtIso) = [] := by
    simpa using h
  simp at this

/-- C6 (amended): `getBookmarkTitle` returns a non-empty string for every
bookmark whose applicable optional sources are themselves non-degenerate —
non-empty text has a non-empty first line, non-empty URLs yield a
non-empty derived title, and a non-empty file name survives extension
stripping; in the remaining cases the non-empty structural fallback
`Bookmark-{id}-{createdDate}` is returned.  Unrestricted totality fails:
a text whose first line is empty resolves to the empty string. -/
theorem getBookmarkTitle_nonempty (b : Bookmark) (h : titleSourcesOk b = true) :
    getBookmarkTitle b ≠ [] := by
  unfold titleSourcesOk at h
  simp only [Bool.and_eq_true, Bool.or_eq_true, List.isEmpty_iff,
    Bool.not_eq_true', List.isEmpty_eq_false, ne_eq] at h
  obtain ⟨⟨⟨htext, hurl⟩, hfile⟩, hsrc⟩ := h
  unfold getBookmarkTitle
  by_cases ht : jsTruthy b.title
  · simp only [ht, if_true]
    exact jsTruthy_jsStr ht
  · simp only [ht, Bool.false_eq_true, if_false]
    cases hc : b.content.ctype with
    | link =>
      by_cases h1 : jsTruthy b.content.title
      · simp only [h1, if_true]
        exact jsTruthy_jsStr h1
      · simp only [h1, Bool.false_eq_true, if_false]
        by_cases h2 : jsTruthy b.content.url
        · simp only [h2, if_true]
          rcases hurl with hurl | hurl
          · exact absurd hurl (jsTruthy_jsStr h2)
          · exact hurl
        · simp only [h2, Bool.false_eq_true, if_false]
          exact bookmarkFallbackTitle_ne_nil b
    | text =>
      by_cases h1 : jsTruthy b.content.text
      · simp only [h1, if_true]
        rcases htext with htext | htext
        · exact absurd htext (jsTruthy_jsStr h1)
        · exact htext
      · simp only [h1, Bool.false_eq_true, if_false]
        exact bookmarkFallbackTitle_ne_nil b
    | asset =>
      by_cases h1 : jsTruthy b.content.fileName
      · simp only [h1, if_true]
        rcases hfile with hfile | hfile
        · exact absurd hfile (jsTruthy_jsStr h1)
        · exact hfile
      · simp only [h1, Bool.false_eq_true, if_false]
        by_cases h2 : jsTruthy b.content.sourceUrl
        · simp only [h2, if_true]
          rcases hsrc with hsrc | hsrc
          · exact absurd hsrc (jsTruthy_jsStr h2)
          · exact hsrc
        · simp only [h2, Bool.false_eq_true, if_false]
          exact bookmarkFallbackTitle_ne_nil b
    | unknown => exact bookmarkFallbackTitle_ne_nil b

/-- Counterexample for C6 as stated: a well-formed text bookmark whose
text is `"\nfoo"` (first line empty) resolves to the empty string. -/
theorem getBookmarkTitle_nonempty_cex : getBookmarkTitle cexTextBookmark = [] := by
  decide

/-- Witness for C6: a text bookmark with text `"hello"` satisfies the
side conditions and resolves to a non-empty title. -/
theorem getBookmarkTitle_nonempty_witness :
    titleSourcesOk witTextBookmark = true ∧ getBookmarkTitle witTextBookmark ≠ [] :=
  ⟨by decide, getBookmarkTitle_nonempty witTextBookmark (by decide)⟩

/-- Whatever follows the Notes section starts with a newline and an
opening bracket (the `Visit Link` or `View in Hoarder` line). -/
theorem docAfterNotes_shape (b : Bookmark) (st : RenderSettings) :
    ∃ t, docAfterNotes b st = '\n' :: '[' :: t := by
  unfold docAfterNotes
  split
  · exact ⟨_, rfl⟩
  · exact ⟨_, rfl⟩

/-- C1 (amended): for every rendered bookmark whose note `n` has no line
beginning `##` and no line beginning `[`, and whose document portion
before the Notes section does not itself contain the section marker
`## Notes\n\n` (an adversarial summary, description, title or highlight
could inject one), extracting the produced document returns exactly the
whitespace-trimmed note:
`extractNotesSection (formatBookmarkAsMarkdown ...) = some (trim n)`. -/
theorem notes_roundtrip (b : Bookmark) (title : List Char) (highlights : List Highlight)
    (assetContent : List Char) (assetsFm : Option AssetsFrontmatter) (st : RenderSettings)
    (hpre : containsSeq notesMarker
      (docBeforeNotes b title highlights assetContent assetsFm st ++
        ('\n' :: ("## Notes\n".toList))) = false)
    (hn1 : ("##".toList).isPrefixOf (jsStr b.note) = false)
    (hn2 : containsSeq ("\n##".toList) (jsStr b.note) = false)
    (hn3 : ("[".toList).isPrefixOf (jsStr b.note) = false)
    (hn4 : containsSeq ("\n[".toList) (jsStr b.note) = false) :
    extractNotesSection (formatBookmarkAsMarkdown b title highlights assetContent assetsFm st)
      = some (jsTrim (jsStr b.note)) := by
  obtain ⟨t, ht⟩ := docAfterNotes_shape b st
  have hdoc : formatBookmarkAsMarkdown b title highlights assetContent assetsFm st
      = (docBeforeNotes b title highlights assetContent assetsFm st ++ ['\n']) ++
        (("## Notes\n".toList) ++ ['\n']) ++
        (jsStr b.note ++ '\n' :: '\n' :: '[' :: t) := by
    unfold formatBookmarkAsMarkdown notesSectionOf
    rw [ht]
    rw [show ("\n## Notes\n\n".toList) = '\n' :: (("## Notes\n".toList) ++ ['\n']) by decide]
    simp [List.append_assoc]
  have hocc : containsSeq (("## Notes\n".toList) ++ ['\n'])
      ((docBeforeNotes b title highlights assetContent assetsFm st ++ ['\n']) ++
        ("## Notes\n".toList)) = false := by
    have hre : (docBeforeNotes b title highlights assetContent assetsFm st ++ ['\n']) ++
        ("## Notes\n".toList)
        = docBeforeNotes b title highlights assetContent assetsFm st ++
          ('\n' :: ("## Notes\n".toList)) := by
      simp
    rw [hre]
    exact hpre
  unfold extractNotesSection
  rw [hdoc]
  rw [show notesMarker = ("## Notes\n".toList) ++ ['\n'] by decide]
  rw [afterFirst_first_occurrence ("## Notes\n".toList) '\n'
    (docBeforeNotes b title highlights assetContent assetsFm st ++ ['\n'])
    (jsStr b.note ++ '\n' :: '\n' :: '[' :: t) hocc]
  show some (jsTrim (captureUntilStop (jsStr b.note ++ '\n' :: '\n' :: '[' :: t)))
    = some (jsTrim (jsStr b.note))
  rw [captureUntilStop_notes (jsStr b.note) t hn2 hn4]
  rw [jsTrim_append_ws (by decide)]

/-- Counterexample for C1 as stated: a bookmark whose note `"hello"`
satisfies all the hypotheses of the claim, but whose summary contains the
section marker; extraction returns the summary fragment `"X"`, not the
note. -/
theorem notes_roundtrip_cex :
    (("##".toList).isPrefixOf ("hello".toList) = false) ∧
    (containsSeq ("\n##".toList) ("hello".toList) = false) ∧
    (("[".toList).isPrefixOf ("hello".toList) = false) ∧
    (containsSeq ("\n[".toList) ("hello".toList) = false) ∧
    cexSummaryBookmark.note = some ("hello".toList) ∧
    extractNotesSection (formatBookmarkAsMarkdown cexSummaryBookmark ("T".toList) [] []
      none stdRenderSettings) = some ("X".toList) ∧
    some ("X".toList) ≠ some (jsTrim ("hello".toList)) := by
  refine ⟨by decide, by decide, by decide, by decide, rfl, ?_, by decide⟩
  decide

/-- Witness for C1 (amended) at a bookmark with a two-line note and an
ordinary summary. -/
theorem notes_roundtrip_witness :
    extractNotesSection (formatBookmarkAsMarkdown witRoundtripBookmark ("T".toList) [] []
      none stdRenderSettings) = some (jsTrim (jsStr witRoundtripBookmark.note)) :=
  notes_roundtrip witRoundtripBookmark ("T".toList) [] [] none stdRenderSettings
    (by decide) (by decide) (by decide) (by decide) (by decide)
